import Mathlib

/-!
Verification model of the expression engine of `Calculator.py`.

The engine's numeric domain is modelled by exact rationals (`ℚ`).  Python
computes with binary64 floats; every concrete value appearing in a theorem
below is one on which binary64 evaluation and exact evaluation agree, and
claims that are intrinsically about binary64 behaviour (rounding noise,
shortest round-trip representation, magnitude overflow to ±infinity and
`nan` propagation) are not settled through this model; where the source
has a failure path only such magnitudes can reach, the doc comment of the
definition modelling it states the path.

Naming guide (source symbol → model definition):
  `_validate_expression` → `validateExpression`
  `÷`/`×` replacement in `_calculate` → `normalizeExpr`
  `_safe_eval` (Python `eval` on the whitelisted charset) → `safeEval`
  `_format_result` → `formatResult`
  `_press` / `_clear` / `_toggle_sign` / `_percentage` / `_calculate`
    → `press` / `clear` / `toggleSign` / `percentageE` / `calculateE`
The spec's reference arithmetic grammar (§4.3) → `refEval`.
-/

deriving instance DecidableEq for Except

attribute [local semireducible] Rat.add Rat.mul Rat.sub Rat.inv

/-- Code-point ranges of the Unicode general category Nd (decimal digits),
the set Python's `re` module matches for `\d` on text patterns and the
digits `str`-to-number conversions accept.  Every range is an aligned run
of ten-digit blocks, so a character's decimal value is its offset in the
range modulo ten. -/
def ndRanges : List (ℕ × ℕ) :=
  [(0x30, 0x39), (0x660, 0x669), (0x6F0, 0x6F9), (0x7C0, 0x7C9), (0x966, 0x96F), (0x9E6, 0x9EF), (0xA66, 0xA6F), (0xAE6, 0xAEF), (0xB66, 0xB6F), (0xBE6, 0xBEF), (0xC66, 0xC6F), (0xCE6, 0xCEF), (0xD66, 0xD6F), (0xDE6, 0xDEF), (0xE50, 0xE59), (0xED0, 0xED9), (0xF20, 0xF29), (0x1040, 0x1049), (0x1090, 0x1099), (0x17E0, 0x17E9), (0x1810, 0x1819), (0x1946, 0x194F), (0x19D0, 0x19D9), (0x1A80, 0x1A89), (0x1A90, 0x1A99), (0x1B50, 0x1B59), (0x1BB0, 0x1BB9), (0x1C40, 0x1C49), (0x1C50, 0x1C59), (0xA620, 0xA629), (0xA8D0, 0xA8D9), (0xA900, 0xA909), (0xA9D0, 0xA9D9), (0xA9F0, 0xA9F9), (0xAA50, 0xAA59), (0xABF0, 0xABF9), (0xFF10, 0xFF19), (0x104A0, 0x104A9), (0x10D30, 0x10D39), (0x11066, 0x1106F), (0x110F0, 0x110F9), (0x11136, 0x1113F), (0x111D0, 0x111D9), (0x112F0, 0x112F9), (0x11450, 0x11459), (0x114D0, 0x114D9), (0x11650, 0x11659), (0x116C0, 0x116C9), (0x11730, 0x11739), (0x118E0, 0x118E9), (0x11950, 0x11959), (0x11C50, 0x11C59), (0x11D50, 0x11D59), (0x11DA0, 0x11DA9), (0x16A60, 0x16A69), (0x16AC0, 0x16AC9), (0x16B50, 0x16B59), (0x1D7CE, 0x1D7FF), (0x1E140, 0x1E149), (0x1E2F0, 0x1E2F9), (0x1E950, 0x1E959), (0x1FBF0, 0x1FBF9)]

/-- Python's digit test: any Unicode decimal digit (`\d`). -/
def pyDigit (c : Char) : Bool :=
  ndRanges.any fun p => decide (p.1 ≤ c.toNat) && decide (c.toNat ≤ p.2)

/-- Decimal value of a Unicode digit: its offset in its Nd range, modulo
ten. -/
def pyDigitVal (c : Char) : ℕ :=
  match ndRanges.find? (fun p => decide (p.1 ≤ c.toNat) && decide (c.toNat ≤ p.2)) with
  | some p => (c.toNat - p.1) % 10
  | none => 0

/-- Characters accepted by `_validate_expression`'s character class
`[\d+\-*/.() ]`: `\d` is any Unicode decimal digit (so the validator also
accepts digits such as `'٥'` and `'１'`), plus the listed ASCII
punctuation. -/
def allowedChar (c : Char) : Bool :=
  pyDigit c || c == '+' || c == '-' || c == '*' || c == '/' ||
    c == '.' || c == '(' || c == ')' || c == ' '

/-- Model of `re.match(r'^[\d+\-*/.() ]+$', expression)`.  In Python, `$`
matches at the end of the string **or just before a trailing newline**, and
the character class contains no newline, so the regex accepts exactly: a
non-empty run of class characters, optionally followed by one final `'\n'`.
Since the class never matches `'\n'`, greedy matching without backtracking
(`takeWhile`) computes the same result as the backtracking engine. -/
def validateExpression (s : String) : Bool :=
  let p := s.data.takeWhile allowedChar
  let r := s.data.dropWhile allowedChar
  !p.isEmpty && (r.isEmpty || r == ['\n'])

/-- Model of `expression.replace('÷', '/').replace('×', '*')` from
`_calculate` (both replaced patterns are single characters, so the two
`str.replace` calls are one character map). -/
def normalizeExpr (s : String) : String :=
  ⟨s.data.map fun c => if c = '÷' then '/' else if c = '×' then '*' else c⟩

/-- The composite validation gate as `_calculate` applies it: glyph
normalization followed by `_validate_expression` (lines 308–311). -/
def engineValidate (s : String) : Bool :=
  validateExpression (normalizeExpr s)

/-- Numeric value of a digit string (most significant first). -/
def natOfDigits (l : List Char) : ℕ :=
  l.foldl (fun a c => 10 * a + (c.toNat - '0'.toNat)) 0

/-- Lex one numeric literal, maximal munch, following Python's literal
grammar over this charset: `digits ['.' digits*]` or `'.' digits+`; the
returned flag says whether the literal is `int`-typed (no dot) — Python's
dynamic typing matters for tuple repetition.  Source-code literals use
ASCII digits only (a bare Unicode digit is a `SyntaxError` to `eval`,
unlike in `float()`), and underscore grouping cannot reach `eval` through
the validator.  With `strict = true` the Python 3 restriction on integer
literals applies: a dotless literal whose first digit is `'0'` is legal
only when all its digits are `'0'` (`eval("05")` is a `SyntaxError`,
`eval("00")` is `0`).  With `strict = false` leading zeros are accepted
(used by the spec-modelled reference grammar, which says nothing about
leading zeros). -/
def lexNumWith (strict : Bool) (l : List Char) : Option ((ℚ × Bool) × List Char) :=
  let ds := l.takeWhile Char.isDigit
  let r1 := l.drop ds.length
  let intRes : Option ((ℚ × Bool) × List Char) :=
    if ds.isEmpty then none
    else if strict && ds.head? == some '0' && !(ds.all (· == '0')) then none
    else some (((natOfDigits ds : ℚ), true), r1)
  match r1 with
  | c :: r2 =>
      if c = '.' then
        let fs := r2.takeWhile Char.isDigit
        let r3 := r2.drop fs.length
        if ds.isEmpty && fs.isEmpty then none
        else some (((natOfDigits ds : ℚ) + (natOfDigits fs : ℚ) / (10 : ℚ) ^ fs.length, false), r3)
      else intRes
  | [] => intRes

/-- Skip the space characters that may separate tokens (the only whitespace
character in the validator's class is `' '`). -/
def skipSp : List Char → List Char
  | c :: r => if c = ' ' then skipSp r else c :: r
  | [] => []

/-- Errors the evaluation of a parsed expression can raise in `eval` /
`_safe_eval`: `SyntaxError` (reported by `_safe_eval` for text `eval`
cannot compile), `ZeroDivisionError`, a model marker for `a ** b` with
non-integer `b` (where Python computes an irrational float approximation
that exact arithmetic cannot represent; no claim below exercises that
branch), and `tupleError` for every failure caused by the empty tuple
`()`: a `TypeError` in arithmetic on it, or a tuple as final result
failing `_safe_eval`'s `isinstance` guard — all raised inside
`_safe_eval`'s `try` and wrapped identically as
`CalculatorError("Evaluation error: ...")`. -/
inductive EvalErr where
  | syntaxError
  | divisionByZero
  | nonIntegerPower
  | tupleError
deriving DecidableEq

/-- Abstract syntax of the Python expressions writable over the whitelisted
charset: numeric literals (flagged `int`- or `float`-typed, Python's dynamic
type), the empty tuple `()`, unary `-`/`+`, and the binary operators
`+ - * /` plus Python's `//` (floor division) and `**` (power), which the
charset does not exclude. -/
inductive PExp where
  | num (q : ℚ) (intTyped : Bool)
  | unit
  | neg (a : PExp)
  | pos (a : PExp)
  | add (a b : PExp)
  | sub (a b : PExp)
  | mul (a b : PExp)
  | div (a b : PExp)
  | fdiv (a b : PExp)
  | pow (a b : PExp)
deriving DecidableEq

mutual

/-- Python `primary`: a numeric literal, the empty tuple `()` (the one
non-numeric value writable over the charset), or a parenthesized
expression.  Juxtaposed primaries (call syntax such as `(2)(3)`) are
rejected here as a parse failure, whereas Python raises a runtime
`TypeError`; both surface from `_safe_eval` as a `CalculatorError`. -/
def pAtom : ℕ → List Char → Option (PExp × List Char)
  | 0, _ => none
  | f+1, l =>
    match skipSp l with
    | c :: r =>
      if c = '(' then
        match skipSp r with
        | c0 :: r0 =>
          if c0 = ')' then some (.unit, r0)
          else
            match pExpr f r with
            | some (a, r2) =>
              match skipSp r2 with
              | c2 :: r3 => if c2 = ')' then some (a, r3) else none
              | [] => none
            | none => none
        | [] => none
      else
        match lexNumWith true (c :: r) with
        | some (qb, r4) => some (.num qb.1 qb.2, r4)
        | none => none
    | [] => none

/-- Python `power ::= primary ["**" u_expr]`.  The two asterisks of `**`
must be adjacent in the source text (Python tokenizes `* *` as two `*`
tokens, a syntax error). -/
def pPow : ℕ → List Char → Option (PExp × List Char)
  | 0, _ => none
  | f+1, l =>
    match pAtom f l with
    | some (a, r) =>
      match skipSp r with
      | c :: r1 =>
        if c = '*' then
          match r1 with
          | c2 :: r2 =>
            if c2 = '*' then
              match pUnary f r2 with
              | some (b, r3) => some (.pow a b, r3)
              | none => none
            else some (a, r)
          | [] => some (a, r)
        else some (a, r)
      | [] => some (a, r)
    | none => none

/-- Python `u_expr ::= power | "-" u_expr | "+" u_expr`. -/
def pUnary : ℕ → List Char → Option (PExp × List Char)
  | 0, _ => none
  | f+1, l =>
    match skipSp l with
    | c :: r =>
      if c = '-' then
        match pUnary f r with
        | some (a, r2) => some (.neg a, r2)
        | none => none
      else if c = '+' then
        match pUnary f r with
        | some (a, r2) => some (.pos a, r2)
        | none => none
      else pPow f l
    | [] => pPow f l

/-- Left-associative iteration of Python `m_expr ::= m_expr ("*"|"/"|"//")
u_expr`; `//` is two adjacent slashes. -/
def pTermLoop : ℕ → PExp → List Char → Option (PExp × List Char)
  | 0, _, _ => none
  | f+1, acc, l =>
    match skipSp l with
    | c :: r =>
      if c = '*' then
        match pUnary f r with
        | some (b, r2) => pTermLoop f (.mul acc b) r2
        | none => none
      else if c = '/' then
        match r with
        | c2 :: r2 =>
          if c2 = '/' then
            match pUnary f r2 with
            | some (b, r3) => pTermLoop f (.fdiv acc b) r3
            | none => none
          else
            match pUnary f r with
            | some (b, r3) => pTermLoop f (.div acc b) r3
            | none => none
        | [] =>
          match pUnary f r with
          | some (b, r3) => pTermLoop f (.div acc b) r3
          | none => none
      else some (acc, l)
    | [] => some (acc, l)

/-- Python `m_expr` (a "term": product level). -/
def pTerm : ℕ → List Char → Option (PExp × List Char)
  | 0, _ => none
  | f+1, l =>
    match pUnary f l with
    | some (a, r) => pTermLoop f a r
    | none => none

/-- Left-associative iteration of Python `a_expr ::= a_expr ("+"|"-")
m_expr`. -/
def pExprLoop : ℕ → PExp → List Char → Option (PExp × List Char)
  | 0, _, _ => none
  | f+1, acc, l =>
    match skipSp l with
    | c :: r =>
      if c = '+' then
        match pTerm f r with
        | some (b, r2) => pExprLoop f (.add acc b) r2
        | none => none
      else if c = '-' then
        match pTerm f r with
        | some (b, r2) => pExprLoop f (.sub acc b) r2
        | none => none
      else some (acc, l)
    | [] => some (acc, l)

/-- Python `a_expr` (sum level), the full expression grammar reachable over
the whitelisted charset. -/
def pExpr : ℕ → List Char → Option (PExp × List Char)
  | 0, _ => none
  | f+1, l =>
    match pTerm f l with
    | some (a, r) => pExprLoop f a r
    | none => none

end

/-- Fuel for the spec's reference parser: strictly more than its maximal
call depth on the input. -/
def refFuel (s : String) : ℕ := 5 * s.length + 10

/-- Fuel for the Python-grammar parser; kept at exactly twice `refFuel` so
that the refinement proof, which maps reference-parser fuel `f` to
Python-parser fuel `2 * f`, lands on the fuel `pyParse` actually uses. -/
def pyFuel (s : String) : ℕ := 2 * refFuel s

/-- Compilation phase of `eval(expression, ...)`: parse the whole string as
one Python expression.  `none` models `SyntaxError`. -/
def pyParse (s : String) : Option PExp :=
  match pExpr (pyFuel s) s.data with
  | some (a, r) => if (skipSp r).isEmpty then some a else none
  | none => none

/-- Python runtime values writable over the charset: a number carrying its
dynamic type tag (`intTyped`: `int` arithmetic is exact and unbounded,
`float` idealized as exact ℚ per the module header), or the empty
tuple. -/
inductive PyV where
  | num (q : ℚ) (intTyped : Bool)
  | unit
deriving DecidableEq

/-- Evaluation phase of `eval`, over exact rationals with Python's dynamic
numeric typing tracked.  `x / y` is Python's true division and always
`float`-typed; `x // y`, `x + y`, `x - y`, `x * y` are `int`-typed iff both
operands are (`/` and `//` raise `ZeroDivisionError` on `y = 0`, as does
`0 ** negative`); `int ** nonnegative int` is `int`-typed.  The empty tuple
is a first-class value: `() + ()` is tuple concatenation, `() * i` and
`i * ()` with `int`-typed `i` are tuple repetition (always `()` again since
the tuple is empty), and every other use of a tuple raises `TypeError` —
all tuple-typed failures (and a tuple as final result, the `isinstance`
guard's case) are collapsed into the single `tupleError` kind; their
Python message texts differ but all surface identically as
`CalculatorError("Evaluation error: ...")` from `_safe_eval`.  Operands
evaluate left to right, so an error in the left operand wins. -/
def evalA : PExp → Except EvalErr PyV
  | .num q b => .ok (.num q b)
  | .unit => .ok .unit
  | .neg a =>
    match evalA a with
    | .ok (.num q b) => .ok (.num (-q) b)
    | .ok .unit => .error .tupleError
    | .error e => .error e
  | .pos a =>
    match evalA a with
    | .ok (.num q b) => .ok (.num q b)
    | .ok .unit => .error .tupleError
    | .error e => .error e
  | .add a b =>
    match evalA a, evalA b with
    | .ok (.num x bx), .ok (.num y bb) => .ok (.num (x + y) (bx && bb))
    | .ok .unit, .ok .unit => .ok .unit
    | .ok _, .ok _ => .error .tupleError
    | .error e, _ => .error e
    | _, .error e => .error e
  | .sub a b =>
    match evalA a, evalA b with
    | .ok (.num x bx), .ok (.num y bb) => .ok (.num (x - y) (bx && bb))
    | .ok _, .ok _ => .error .tupleError
    | .error e, _ => .error e
    | _, .error e => .error e
  | .mul a b =>
    match evalA a, evalA b with
    | .ok (.num x bx), .ok (.num y bb) => .ok (.num (x * y) (bx && bb))
    | .ok .unit, .ok (.num _ bi) => if bi then .ok .unit else .error .tupleError
    | .ok (.num _ bi), .ok .unit => if bi then .ok .unit else .error .tupleError
    | .ok .unit, .ok .unit => .error .tupleError
    | .error e, _ => .error e
    | _, .error e => .error e
  | .div a b =>
    match evalA a, evalA b with
    | .ok (.num x _), .ok (.num y _) =>
      if y = 0 then .error .divisionByZero else .ok (.num (x / y) false)
    | .ok _, .ok _ => .error .tupleError
    | .error e, _ => .error e
    | _, .error e => .error e
  | .fdiv a b =>
    match evalA a, evalA b with
    | .ok (.num x bx), .ok (.num y bb) =>
      if y = 0 then .error .divisionByZero
      else .ok (.num ((⌊x / y⌋ : ℤ) : ℚ) (bx && bb))
    | .ok _, .ok _ => .error .tupleError
    | .error e, _ => .error e
    | _, .error e => .error e
  | .pow a b =>
    match evalA a, evalA b with
    | .ok (.num x bx), .ok (.num y bb) =>
      if y.den = 1 then
        if 0 ≤ y.num then .ok (.num (x ^ y.num.toNat) (bx && bb))
        else if x = 0 then .error .divisionByZero
        else .ok (.num (x ^ y.num) false)
      else .error .nonIntegerPower
    | .ok _, .ok _ => .error .tupleError
    | .error e, _ => .error e
    | _, .error e => .error e

/-- Model of `_safe_eval`: `eval` with empty namespaces on already
normalized text, then the `isinstance` guard and the `float(result)`
conversion.  A tuple result fails the `isinstance` check
(`CalculatorError("Invalid result type")`, re-wrapped by the same `except`
into `"Evaluation error: ..."`), folded into `tupleError` with the other
tuple failures; on numbers, `float()` is the identity in the exact model
(binary64 rounding, and `OverflowError` on an `int` result too large for a
float, are the idealizations declared in the module header). -/
def safeEval (s : String) : Except EvalErr ℚ :=
  match pyParse s with
  | some a =>
    match evalA a with
    | .ok (.num q _) => .ok q
    | .ok .unit => .error .tupleError
    | .error e => .error e
  | none => .error .syntaxError

mutual

/-- Modelled from the spec: reference-grammar operand, "numeric literals"
and "parenthesized grouping" (§4.3).  `strict` selects the literal lexer:
the spec itself places no restriction on leading zeros (`strict = false`);
`strict = true` restricts operands to literals Python also accepts. -/
def refAtom (strict : Bool) : ℕ → List Char → Option (ℚ × List Char)
  | 0, _ => none
  | f+1, l =>
    match skipSp l with
    | c :: r =>
      if c = '(' then
        match refExpr strict f r with
        | some (q, r2) =>
          match skipSp r2 with
          | c2 :: r3 => if c2 = ')' then some (q, r3) else none
          | [] => none
        | none => none
      else
        match lexNumWith strict (c :: r) with
        | some (qb, r4) => some (qb.1, r4)
        | none => none
    | [] => none

/-- Modelled from the spec: "unary minus is supported at expression start
and after an open parenthesis or another operator" — i.e. wherever an
operand may start. -/
def refFactor (strict : Bool) : ℕ → List Char → Option (ℚ × List Char)
  | 0, _ => none
  | f+1, l =>
    match skipSp l with
    | c :: r =>
      if c = '-' then
        match refFactor strict f r with
        | some (q, r2) => some (-q, r2)
        | none => none
      else refAtom strict f l
    | [] => refAtom strict f l

/-- Modelled from the spec: left-to-right iteration of the tighter level
`* /`, computing as it parses; division by zero fails. -/
def refTermLoop (strict : Bool) : ℕ → ℚ → List Char → Option (ℚ × List Char)
  | 0, _, _ => none
  | f+1, acc, l =>
    match skipSp l with
    | c :: r =>
      if c = '*' then
        match refFactor strict f r with
        | some (q, r2) => refTermLoop strict f (acc * q) r2
        | none => none
      else if c = '/' then
        match refFactor strict f r with
        | some (q, r2) => if q = 0 then none else refTermLoop strict f (acc / q) r2
        | none => none
      else some (acc, l)
    | [] => some (acc, l)

/-- Modelled from the spec: the `* /` precedence level. -/
def refTerm (strict : Bool) : ℕ → List Char → Option (ℚ × List Char)
  | 0, _ => none
  | f+1, l =>
    match refFactor strict f l with
    | some (q, r) => refTermLoop strict f q r
    | none => none

/-- Modelled from the spec: left-to-right iteration of the looser level
`+ -`. -/
def refExprLoop (strict : Bool) : ℕ → ℚ → List Char → Option (ℚ × List Char)
  | 0, _, _ => none
  | f+1, acc, l =>
    match skipSp l with
    | c :: r =>
      if c = '+' then
        match refTerm strict f r with
        | some (q, r2) => refExprLoop strict f (acc + q) r2
        | none => none
      else if c = '-' then
        match refTerm strict f r with
        | some (q, r2) => refExprLoop strict f (acc - q) r2
        | none => none
      else some (acc, l)
    | [] => some (acc, l)

/-- Modelled from the spec: the `+ -` precedence level, the full reference
grammar. -/
def refExpr (strict : Bool) : ℕ → List Char → Option (ℚ × List Char)
  | 0, _ => none
  | f+1, l =>
    match refFactor strict f l with
    | some (q, r) =>
      match refTermLoop strict f q r with
      | some (q2, r2) => refExprLoop strict f q2 r2
      | none => none
    | none => none

end

/-- Modelled from the spec (§4.3, §8): the reference arithmetic evaluator
against which `evaluate` is compared: conventional precedence,
left-to-right associativity, unary minus at operand starts, division by
zero fails.  Numeric literals follow the spec's words only (leading zeros
carry no restriction). -/
def refEval (s : String) : Option ℚ :=
  match refExpr false (refFuel s) s.data with
  | some (q, r) => if (skipSp r).isEmpty then some q else none
  | none => none

/-- The reference evaluator restricted to operands Python's literal grammar
also accepts (no leading zero on a dotless literal unless all zeros).  Used
by the amended form of the evaluator-correctness claim. -/
def refEvalPy (s : String) : Option ℚ :=
  match refExpr true (refFuel s) s.data with
  | some (q, r) => if (skipSp r).isEmpty then some q else none
  | none => none

/-- Error signals an engine operation can report.  The source collapses all
engine failures into the single exception class `CalculatorError` and
distinguishes the conditions only by raise site / message text; each
constructor here stands for one raise site:
  `tooLong`         — `_press`: "Expression too long"
  `noExpression`    — `_calculate`: "No expression to calculate"
  `invalidFormat`   — `_calculate`: "Invalid expression format"
  `evalError e`     — `_safe_eval`: "Evaluation error: …" wrapping the
                       inner exception `e`, where `e = .tupleError` also
                       covers the `isinstance` guard's own
                       `CalculatorError("Invalid result type")` (raised
                       inside the `try` and re-wrapped by the same
                       `except`, so it surfaces from the same site with
                       the same prefix)
  `noValueToConvert` — `_percentage`: "No value to convert"
  `invalidValueForPercentage` — `_percentage`: "Invalid value for
                       percentage" (a caught `ValueError`)
  `overflowError`   — `_percentage` on a buffer parsing to ±infinity:
                       `int(inf)` raises `OverflowError`, which
                       `except ValueError` does **not** catch, so this one
                       escapes as a bare Python exception, not as a
                       `CalculatorError`. -/
inductive CalcErr where
  | tooLong
  | noExpression
  | invalidFormat
  | evalError (e : EvalErr)
  | noValueToConvert
  | invalidValueForPercentage
  | overflowError
deriving DecidableEq

/-- Python's `round` to an integer: round half to even. -/
def rhe (y : ℚ) : ℤ :=
  let f := ⌊y⌋
  if y - f < 1/2 then f
  else if 1/2 < y - f then f + 1
  else if f % 2 = 0 then f else f + 1

/-- `round(result, 10)` on exact rationals. -/
def round10 (q : ℚ) : ℚ := ((rhe (q * 10 ^ 10) : ℤ) : ℚ) / 10 ^ 10

/-- Remove trailing decimal zeros: `(m, k)` represents `m / 10 ^ k`. -/
def stripZeros : ℕ → ℕ → ℕ → ℕ × ℕ
  | 0, m, k => (m, k)
  | f+1, m, k =>
    if k = 0 then (m, k)
    else if m % 10 = 0 then stripZeros f (m / 10) (k - 1)
    else (m, k)

/-- Decimal digits of a natural number, most significant first. -/
def natDigits (n : ℕ) : List Char := Nat.toDigits 10 n

/-- Exponent field of Python's scientific notation: at least two digits. -/
def pad2 (n : ℕ) : List Char :=
  if n < 10 then '0' :: natDigits n else natDigits n

/-- Decimal string of an integer (`str(int(...))`). -/
def intStr (n : ℤ) : String :=
  if n < 0 then "-" ++ String.mk (natDigits n.natAbs)
  else String.mk (natDigits n.natAbs)

/-- Model of `str(rounded)` on a non-integral rounded value: Python renders
the shortest round-tripping decimal, positionally when the decimal exponent
`e` satisfies `-4 ≤ e < 16` and in scientific notation otherwise.  For the
values `round10` produces, the rational *is* an exact decimal with at most
ten fractional digits, and that decimal is what Python prints for the
corresponding float on every value appearing in the theorems below.
Meaningful when `q.den` divides `10 ^ 10` and `q.den ≠ 1`, which the caller
guarantees. -/
def pyFloatStr (q : ℚ) : String :=
  let sign := if q.num < 0 then "-" else ""
  let m10 := q.num.natAbs * (10 ^ 10 / q.den)
  let mk := stripZeros 12 m10 10
  let ds := natDigits mk.1
  let e10 : ℤ := (ds.length : ℤ) - 1 - (mk.2 : ℤ)
  let body :=
    if e10 < -4 || 16 ≤ e10 then
      let mant :=
        match ds with
        | [d] => [d]
        | d :: rest => d :: '.' :: rest
        | [] => ['0']
      let esign := if e10 < 0 then "-" else "+"
      String.mk mant ++ "e" ++ esign ++ String.mk (pad2 e10.natAbs)
    else if 0 ≤ e10 then
      String.mk (ds.take (e10.toNat + 1)) ++ "." ++ String.mk (ds.drop (e10.toNat + 1))
    else
      "0." ++ String.mk (List.replicate (e10.natAbs - 1) '0') ++ String.mk ds
  sign ++ body

/-- Model of `_format_result`: round to ten decimal places; an integral
rounded value renders as a plain integer, anything else as Python's float
string. -/
def formatResult (q : ℚ) : String :=
  let r := round10 q
  if r.den = 1 then intStr r.num else pyFloatStr r

/-- Values `float(text)` can produce. -/
inductive PyVal where
  | fin (q : ℚ)
  | pinf
  | ninf
  | nan
deriving DecidableEq

/-- The Unicode White_Space code points, the exact set `float(str)` strips
from both ends of its argument. -/
def pyWhitespace : List ℕ :=
  [0x9, 0xA, 0xB, 0xC, 0xD, 0x20, 0x85, 0xA0, 0x1680,
   0x2000, 0x2001, 0x2002, 0x2003, 0x2004, 0x2005, 0x2006, 0x2007,
   0x2008, 0x2009, 0x200A, 0x2028, 0x2029, 0x202F, 0x205F, 0x3000]

/-- Whitespace `float()` strips. -/
def isSpaceC (c : Char) : Bool :=
  pyWhitespace.contains c.toNat

/-- Greedy scan of one digit group as `float()` accepts it: Unicode decimal
digits, with a single underscore allowed only between two digits.  Returns
the accumulated value, the count of digits consumed, and the unconsumed
rest — a leading, trailing or doubled underscore is left in place, so the
caller's completeness check rejects it. -/
def lexUD : List Char → ℕ → ℕ → ℕ × ℕ × List Char
  | c :: r, acc, n =>
    if pyDigit c then lexUD r (10 * acc + pyDigitVal c) (n + 1)
    else if c = '_' ∧ n ≠ 0 then
      match r with
      | c2 :: r2 =>
        if pyDigit c2 then lexUD r2 (10 * acc + pyDigitVal c2) (n + 1)
        else (acc, n, c :: r)
      | [] => (acc, n, c :: r)
    else (acc, n, c :: r)
  | [], acc, n => (acc, n, [])

/-- A float literal body for `float()`: `digits ["." digits] [("e"|"E")
[sign] digits]` with at least one mantissa digit, over Unicode decimal
digits with underscore grouping (`float("1e-09")` and `float("1_0")` are
legal even though no calculator key produces `e` or `_`).  The parsed
value is kept exact; that a decimal too large in magnitude for binary64
converts to ±infinity (e.g. `float("1e999")`) is among the idealizations
declared in the module header. -/
def lexPyFloatLit (l : List Char) : Option (ℚ × List Char) :=
  let ip := lexUD l 0 0
  let mant : Option (ℚ × List Char) :=
    match ip.2.2 with
    | c :: r2 =>
      if c = '.' then
        let fp := lexUD r2 0 0
        if ip.2.1 = 0 && fp.2.1 = 0 then none
        else some ((ip.1 : ℚ) + (fp.1 : ℚ) / (10 : ℚ) ^ fp.2.1, fp.2.2)
      else if ip.2.1 = 0 then none else some ((ip.1 : ℚ), ip.2.2)
    | [] => if ip.2.1 = 0 then none else some ((ip.1 : ℚ), ip.2.2)
  match mant with
  | some (q, r) =>
    match r with
    | c :: r2 =>
      if c = 'e' || c = 'E' then
        let se : Bool × List Char :=
          match r2 with
          | '-' :: u => (true, u)
          | '+' :: u => (false, u)
          | _ => (false, r2)
        let ep := lexUD se.2 0 0
        if ep.2.1 = 0 then none
        else some ((if se.1 then q / (10 : ℚ) ^ ep.1 else q * (10 : ℚ) ^ ep.1), ep.2.2)
      else some (q, c :: r2)
    | [] => some (q, [])
  | none => none

/-- ASCII lowercase mapping, for `float()`'s case-insensitive comparison of
the words `inf`, `infinity` and `nan`. -/
def toLowerAscii (c : Char) : Char :=
  if 'A' ≤ c && c ≤ 'Z' then Char.ofNat (c.toNat + 32) else c

/-- Model of Python `float(text)`: optional surrounding Unicode whitespace,
an optional sign, then one of the case-insensitive words `inf`, `infinity`,
`nan`, or a float literal (Unicode digits and underscore grouping
included). -/
def parseFloatPy (s : String) : Option PyVal :=
  let l0 := (((s.data.dropWhile isSpaceC).reverse.dropWhile isSpaceC).reverse)
  let sl : Bool × List Char :=
    match l0 with
    | '-' :: r => (true, r)
    | '+' :: r => (false, r)
    | _ => (false, l0)
  let low := sl.2.map toLowerAscii
  if low == ['i', 'n', 'f'] || low == ['i', 'n', 'f', 'i', 'n', 'i', 't', 'y'] then
    some (if sl.1 then .ninf else .pinf)
  else if low == ['n', 'a', 'n'] then some .nan
  else
    match lexPyFloatLit sl.2 with
    | some (q, []) => some (.fin (if sl.1 then -q else q))
    | _ => none

/-- Model of `_press`: reject when the buffer already holds
`MAX_EXPRESSION_LENGTH = 20` or more characters, else concatenate. -/
def press (buf v : String) : Except CalcErr String :=
  if 20 ≤ buf.length then .error .tooLong else .ok (buf ++ v)

/-- Model of `_handle_backspace` / spec `backspace()`: drop the last
character; no-op on the empty buffer. -/
def backspace (buf : String) : String := ⟨buf.data.dropLast⟩

/-- Model of `_clear`. -/
def clear : String := ""

/-- Model of `_toggle_sign`: purely leading-character sign toggling, with
no length check. -/
def toggleSign (buf : String) : String :=
  if buf = "" then buf
  else if buf.data.head? == some '-' then ⟨buf.data.tail⟩
  else "-" ++ buf

/-- Model of `_calculate` as a function from the current buffer to the new
buffer or an error: empty check, glyph normalization, charset validation,
`_safe_eval`, `_format_result`.  In the program, binary64 magnitude
effects open three further failure paths that the exact-value model cannot
exhibit (the idealization declared in the module header): an `eval` result
that is an `int` too large for `float(result)` raises `OverflowError`
inside `_safe_eval`'s `try` and is wrapped as "Evaluation error: …"; a
float result of `±inf` (e.g. from `99**99/.1*99**99`) reaches `int(inf)`
inside `_format_result`, whose `OverflowError` is not in `_calculate`'s
`except (ValueError, ZeroDivisionError, SyntaxError)` and escapes as a
bare Python exception; and a `nan` result (e.g. from
`0*(99**99/.1*99**99)`) makes `int(nan)` raise `ValueError`, which that
same `except` wraps as `CalculatorError("Calculation failed: …")`, a
raise site this model's error type does not otherwise produce. -/
def calculateE (buf : String) : Except CalcErr String :=
  if buf = "" then .error .noExpression
  else
    let e := normalizeExpr buf
    if validateExpression e then
      match safeEval e with
      | .ok v => .ok (formatResult v)
      | .error err => .error (.evalError err)
    else .error .invalidFormat

/-- Model of `_percentage`: `float(expression) / 100`, formatted.  A
`ValueError` (unparsable text, or `int(nan)` inside `_format_result`) is
caught and reported as "Invalid value for percentage"; a buffer parsing to
±infinity reaches `int(inf)` inside `_format_result`, whose
`OverflowError` is *not* caught by `except ValueError` and escapes. -/
def percentageE (buf : String) : Except CalcErr String :=
  if buf = "" then .error .noValueToConvert
  else
    match parseFloatPy buf with
    | some (.fin q) => .ok (formatResult (q / 100))
    | some .pinf => .error .overflowError
    | some .ninf => .error .overflowError
    | some .nan => .error .invalidValueForPercentage
    | none => .error .invalidValueForPercentage

/-- State-transition view of `_calculate`: on failure the exception
propagates before `self.expression` is reassigned, so the buffer keeps its
pre-operation value. -/
def applyCalculate (buf : String) : String × Option CalcErr :=
  match calculateE buf with
  | .ok s => (s, none)
  | .error e => (buf, some e)

/-- State-transition view of `_press`: the buffer mutates only on
success. -/
def applyPress (buf v : String) : String × Option CalcErr :=
  match press buf v with
  | .ok s => (s, none)
  | .error e => (buf, some e)

/-- State-transition view of `_percentage`. -/
def applyPercentage (buf : String) : String × Option CalcErr :=
  match percentageE buf with
  | .ok s => (s, none)
  | .error e => (buf, some e)

/-! ### Helper lemmas -/

/-- `takeWhile` walks through a prefix every element of which satisfies the
predicate. -/
theorem takeWhile_append_all {P : Char → Bool} :
    ∀ (m rest : List Char), m.all P = true →
      (m ++ rest).takeWhile P = m ++ rest.takeWhile P := by
  intro m rest h
  induction m with
  | nil => simp
  | cons c t ih =>
    simp only [List.all_cons, Bool.and_eq_true] at h
    simp [List.takeWhile_cons, h.1, ih h.2]

/-- `dropWhile` discards a prefix every element of which satisfies the
predicate. -/
theorem dropWhile_append_all {P : Char → Bool} :
    ∀ (m rest : List Char), m.all P = true →
      (m ++ rest).dropWhile P = rest.dropWhile P := by
  intro m rest h
  induction m with
  | nil => simp
  | cons c t ih =>
    simp only [List.all_cons, Bool.and_eq_true] at h
    simp [List.dropWhile_cons, h.1, ih h.2]

/-- Everything `takeWhile` keeps satisfies the predicate. -/
theorem all_takeWhile {P : Char → Bool} :
    ∀ (l : List Char), (l.takeWhile P).all P = true := by
  intro l
  induction l with
  | nil => simp
  | cons c t ih =>
    by_cases h : P c
    · simp [List.takeWhile_cons, h, ih]
    · simp [List.takeWhile_cons, h]

/-! ### Theorems for the claims -/

set_option maxRecDepth 8000 in
/-- C2 (counterexample): the buffer-length invariant fails at `toggleSign`:
on a buffer of exactly 20 characters with no leading minus, `_toggle_sign`
prepends `'-'` with no length check, mutating the buffer to 21 characters
and raising no error. -/
theorem toggleSign_exceeds_maxLength :
    ("11111111111111111111" : String).length = 20 ∧
    toggleSign "11111111111111111111" = "-11111111111111111111" ∧
    (toggleSign "11111111111111111111").length = 21 := by
  decide

set_option maxRecDepth 8000 in
/-- C2 (amended): `_press` on a buffer of 20 or more characters fails with
the TooLong error and leaves the buffer unchanged; a single-character press
on a buffer within the bound, a backspace, and a clear all preserve the
20-character bound.  (`toggleSign`, `calculate` and `percentage` can exceed
the bound, as the counterexample shows for `toggleSign`.) -/
theorem append_respects_maxLength :
    (∀ b v : String, 20 ≤ b.length → applyPress b v = (b, some CalcErr.tooLong)) ∧
    (∀ b v : String, b.length ≤ 20 → v.length ≤ 1 → ((applyPress b v).1).length ≤ 20) ∧
    (∀ b : String, b.length ≤ 20 → (backspace b).length ≤ 20) ∧
    clear.length ≤ 20 := by
  refine ⟨?_, ?_, ?_, by decide⟩
  · intro b v h
    have hp : press b v = .error .tooLong := by
      unfold press
      rw [if_pos h]
    unfold applyPress
    rw [hp]
  · intro b v hb hv
    by_cases h : 20 ≤ b.length
    · have hp : press b v = .error .tooLong := by
        unfold press
        rw [if_pos h]
      unfold applyPress
      rw [hp]
      exact hb
    · have hp : press b v = .ok (b ++ v) := by
        unfold press
        rw [if_neg h]
      unfold applyPress
      rw [hp]
      show (b ++ v).length ≤ 20
      rw [String.length_append]
      omega
  · intro b h
    show b.data.dropLast.length ≤ 20
    rw [List.length_dropLast]
    have hb : b.length = b.data.length := rfl
    omega

set_option maxRecDepth 8000 in
/-- Witness for `append_respects_maxLength`. -/
theorem append_respects_maxLength_witness :
    applyPress "55555555555555555555" "5" = ("55555555555555555555", some CalcErr.tooLong) :=
  append_respects_maxLength.1 "55555555555555555555" "5" (by decide)

set_option maxRecDepth 8000 in
/-- C5: appending `5`, `/`, `0` then calculating fails with the
division-by-zero evaluation error, and the buffer keeps its pre-operation
value `"5/0"` (the exception propagates before the buffer is
reassigned). -/
theorem divisionByZero_leaves_buffer :
    press "" "5" = .ok "5" ∧ press "5" "/" = .ok "5/" ∧ press "5/" "0" = .ok "5/0" ∧
    applyCalculate "5/0" = ("5/0", some (CalcErr.evalError EvalErr.divisionByZero)) := by
  decide

set_option maxRecDepth 8000 in
/-- C1 (counterexample): the claim quantifies over every structurally
well-formed string of allowed characters; `"05"` is one (a single numeric
operand, balanced parentheses) and the reference evaluator values it at 5,
but the code's evaluator is Python `eval`, for which a leading zero on an
integer literal is a `SyntaxError`, so `evaluate` fails instead of
returning 5. -/
theorem specEvaluator_leadingZero_diverges :
    refEval "05" = some 5 ∧
    safeEval "05" = .error EvalErr.syntaxError ∧
    applyCalculate "05" = ("05", some (CalcErr.evalError EvalErr.syntaxError)) := by
  decide

set_option maxRecDepth 8000 in
/-- C4 (counterexample): `"5**2"` passes validation and is "two consecutive
operators with no unary-minus justification" in the claim's own terms, yet
evaluation does not fail with a malformed-expression error: Python parses
`**` as its power operator and returns 25. -/
theorem power_floorDiv_not_malformed :
    engineValidate "5**2" = true ∧
    safeEval "5**2" = .ok 25 ∧
    calculateE "5**2" = .ok "25" := by
  decide

set_option maxRecDepth 8000 in
/-- C4 (amended): mismatched parentheses, empty operands, trailing
operators and operator pairs that are not Python tokens do fail as
malformed (a `SyntaxError` wrapped into `CalculatorError`), but adjacent
`**` and `//` are parsed as Python's power and floor-division operators and
evaluate successfully, and `+` works as a unary prefix too — the evaluator
is Python `eval` behind a charset whitelist, not a four-operator grammar.
`"()"` is not a syntax error at all: `eval` returns the empty tuple, which
fails `_safe_eval`'s `isinstance` guard; tuple arithmetic even runs
(`()*2` is `()`, again failing the guard) and evaluates operands left to
right (`()*(1/0)` raises `ZeroDivisionError` before the `TypeError` would
arise), every such failure surfacing as
`CalculatorError("Evaluation error: ...")`. -/
theorem malformed_and_python_extra_operators :
    safeEval "(5" = .error EvalErr.syntaxError ∧
    safeEval "5+" = .error EvalErr.syntaxError ∧
    safeEval "" = .error EvalErr.syntaxError ∧
    safeEval "5*/3" = .error EvalErr.syntaxError ∧
    applyCalculate "(5" = ("(5", some (CalcErr.evalError EvalErr.syntaxError)) ∧
    safeEval "()" = .error EvalErr.tupleError ∧
    safeEval "()*2" = .error EvalErr.tupleError ∧
    safeEval "()*2.0" = .error EvalErr.tupleError ∧
    safeEval "()*(1/0)" = .error EvalErr.divisionByZero ∧
    safeEval "8//2" = .ok 4 ∧
    safeEval "5++2" = .ok 7 := by
  decide

set_option maxRecDepth 8000 in
/-- C8 (counterexample): the buffer `"inf"` is not a bare numeric literal,
yet `percentage` does not fail with the InvalidOperand error: `float("inf")`
succeeds, and `int(inf)` inside `_format_result` raises `OverflowError`,
which `except ValueError` does not catch. -/
theorem percentage_infinity_not_invalidOperand :
    percentageE "inf" = .error CalcErr.overflowError ∧
    CalcErr.overflowError ≠ CalcErr.invalidValueForPercentage := by
  decide

set_option maxRecDepth 8000 in
/-- C8 (amended): `percentage` on a buffer `float()` parses as a finite
value divides by 100 and installs the formatted result (`"50"` becomes
`"0.5"`, `"200"` becomes `"2"` — and `float()` accepts more than the
calculator's keys can type: underscore grouping `"1_0"` gives `"0.1"`, the
Unicode digit `"٥"` gives `"0.05"`); on a non-empty buffer `float()`
rejects — such as one with a pending operator — and on any spelling of
NaN, it fails with the InvalidOperand error; buffers parsing to ±infinity
(`"inf"`, `"INF"`, `"Infinity"`, … case-insensitively) instead escape with
an uncaught `OverflowError`. -/
theorem percentage_behavior :
    percentageE "50" = .ok "0.5" ∧
    percentageE "200" = .ok "2" ∧
    (∀ b : String, b ≠ "" → parseFloatPy b = none →
      percentageE b = .error CalcErr.invalidValueForPercentage) ∧
    percentageE "5+3" = .error CalcErr.invalidValueForPercentage ∧
    percentageE "1_0" = .ok "0.1" ∧
    percentageE "٥" = .ok "0.05" ∧
    percentageE "INF" = .error CalcErr.overflowError ∧
    percentageE "Infinity" = .error CalcErr.overflowError ∧
    percentageE "nan" = .error CalcErr.invalidValueForPercentage ∧
    percentageE "NaN" = .error CalcErr.invalidValueForPercentage := by
  refine ⟨by decide, by decide, ?_, by decide, by decide, by decide, by decide,
    by decide, by decide, by decide⟩
  intro b hb hp
  simp [percentageE, hb, hp]

set_option maxRecDepth 8000 in
/-- Witness for `percentage_behavior`. -/
theorem percentage_behavior_witness :
    percentageE "8+" = .error CalcErr.invalidValueForPercentage :=
  percentage_behavior.2.2.1 "8+" (by decide) (by decide)

set_option maxRecDepth 8000 in
/-- C9 (counterexample): not every engine failure is one of the six
taxonomy kinds: `percentage` on a buffer parsing to negative infinity
escapes with an uncaught `OverflowError`, a bare Python exception outside
the `CalculatorError` taxonomy. -/
theorem engine_error_escapes_taxonomy :
    percentageE "-inf" = .error CalcErr.overflowError ∧
    CalcErr.overflowError ∉
      [CalcErr.tooLong, CalcErr.noExpression, CalcErr.invalidFormat,
       CalcErr.evalError EvalErr.syntaxError, CalcErr.evalError EvalErr.divisionByZero,
       CalcErr.invalidValueForPercentage] := by
  decide

set_option maxRecDepth 8000 in
/-- C9 (amended): the six failure conditions of the taxonomy each surface
as a distinct error value (distinct raise sites / message texts of the
single exception class `CalculatorError`), and calculate on the empty
buffer fails with the empty-expression kind.  The taxonomy is not
exhaustive: the percentage/±infinity path of the counterexample escapes
it, and — outside this exact-value model, as disclosed on `calculateE` —
binary64 magnitudes also give `calculate` an escaping `OverflowError` on
an infinite result and a seventh wrapped message
(`"Calculation failed: …"`) on a NaN result. -/
theorem error_kinds_distinct :
    applyCalculate "" = ("", some CalcErr.noExpression) ∧
    press "999999999999999999999" "9" = .error CalcErr.tooLong ∧
    calculateE "a1" = .error CalcErr.invalidFormat ∧
    calculateE "(7" = .error (CalcErr.evalError EvalErr.syntaxError) ∧
    calculateE "7/0" = .error (CalcErr.evalError EvalErr.divisionByZero) ∧
    percentageE "7+" = .error CalcErr.invalidValueForPercentage ∧
    [CalcErr.tooLong, CalcErr.noExpression, CalcErr.invalidFormat,
     CalcErr.evalError EvalErr.syntaxError, CalcErr.evalError EvalErr.divisionByZero,
     CalcErr.invalidValueForPercentage].Pairwise (· ≠ ·) := by
  decide

set_option maxRecDepth 8000 in
/-- C10: a 14-character buffer of allowed characters calculates
successfully to the formatted result `"1e-09"` (Python renders `1e-09` in
scientific notation), which contains the letter `e`; the validator rejects
it, so calculating again on the chained result fails with the
invalid-format error. -/
theorem formatted_result_rejected_by_validator :
    ("1/10000000/100" : String).length ≤ 20 ∧
    engineValidate "1/10000000/100" = true ∧
    applyCalculate "1/10000000/100" = ("1e-09", none) ∧
    engineValidate "1e-09" = false ∧
    applyCalculate "1e-09" = ("1e-09", some CalcErr.invalidFormat) := by
  decide

set_option maxRecDepth 8000 in
/-- C3: a successful calculate on a non-empty buffer replaces the buffer by
`format (evaluate (normalize buffer))` — glyph normalization (`×`→`*`,
`÷`→`/`) happens before validation and evaluation — and the scenario:
appending `5`, `+`, `3` then calculating makes the buffer `"8"`, onto which
further input chains (here `"8×2"` recalculates to `"16"`). -/
theorem calculate_pipeline_and_chaining :
    (∀ b s : String, b ≠ "" → calculateE b = .ok s →
      ∃ v : ℚ, safeEval (normalizeExpr b) = .ok v ∧ s = formatResult v) ∧
    press "" "5" = .ok "5" ∧ press "5" "+" = .ok "5+" ∧ press "5+" "3" = .ok "5+3" ∧
    applyCalculate "5+3" = ("8", none) ∧
    calculateE "8×2" = .ok "16" ∧ calculateE "6÷3" = .ok "2" := by
  refine ⟨?_, by decide, by decide, by decide, by decide, by decide, by decide⟩
  intro b s hb h
  simp only [calculateE, if_neg hb] at h
  by_cases hv : validateExpression (normalizeExpr b)
  · rw [if_pos hv] at h
    cases he : safeEval (normalizeExpr b) with
    | ok v =>
      rw [he] at h
      exact ⟨v, rfl, by injection h with h2; exact h2.symm⟩
    | error e => rw [he] at h; cases h
  · rw [if_neg hv] at h; cases h

set_option maxRecDepth 8000 in
/-- Witness for `calculate_pipeline_and_chaining`. -/
theorem calculate_pipeline_and_chaining_witness :
    ∃ v : ℚ, safeEval (normalizeExpr "5+3") = .ok v ∧ "8" = formatResult v :=
  calculate_pipeline_and_chaining.1 "5+3" "8" (by decide) (by decide)

set_option maxRecDepth 8000 in
/-- C6 (counterexample): the claimed characterization of the validator is
false: `"5\n"` contains the disallowed character `'\n'`, yet the validator
accepts it, because Python's `$` also matches just before a trailing
newline. -/
theorem validator_accepts_trailing_newline :
    ¬(engineValidate "5\n" = true ↔
       ("5\n" ≠ "" ∧ (normalizeExpr "5\n").data.all allowedChar = true)) := by
  decide

/-- C6 (amended): after glyph normalization, the validator accepts exactly
the non-empty runs of allowed characters optionally followed by one
trailing newline (Python regex `$` semantics); it accepts every non-empty
all-allowed string, and rejects the empty string and every other string
containing a disallowed character.  It never raises (it is a total
function). -/
theorem validator_characterization (t : String) :
    engineValidate t = true ↔
      (((normalizeExpr t).data ≠ [] ∧ (normalizeExpr t).data.all allowedChar = true) ∨
       (∃ m, (normalizeExpr t).data = m ++ ['\n'] ∧ m ≠ [] ∧ m.all allowedChar = true)) := by
  unfold engineValidate validateExpression
  constructor
  · intro h
    simp only [Bool.and_eq_true, Bool.not_eq_true', List.isEmpty_eq_false_iff_exists_mem,
      Bool.or_eq_true, List.isEmpty_iff, beq_iff_eq] at h
    obtain ⟨h1, h2⟩ := h
    have hsplit := List.takeWhile_append_dropWhile (p := allowedChar)
      (l := (normalizeExpr t).data)
    have htw : ((normalizeExpr t).data.takeWhile allowedChar).all allowedChar = true :=
      all_takeWhile _
    have hne : (normalizeExpr t).data.takeWhile allowedChar ≠ [] := by
      obtain ⟨x, hx⟩ := h1
      intro hc
      rw [hc] at hx
      cases hx
    rcases h2 with h2 | h2
    · left
      constructor
      · rw [← hsplit, h2, List.append_nil]
        exact fun hc => hne (by simpa using hc)
      · rw [← hsplit, h2, List.append_nil]
        exact htw
    · right
      exact ⟨(normalizeExpr t).data.takeWhile allowedChar, (h2 ▸ hsplit).symm, hne, htw⟩
  · intro h
    rcases h with ⟨hne, hall⟩ | ⟨m, hm, hne, hall⟩
    · have htw : (normalizeExpr t).data.takeWhile allowedChar = (normalizeExpr t).data := by
        have := takeWhile_append_all (P := allowedChar) (normalizeExpr t).data [] hall
        simpa using this
      have hdw : (normalizeExpr t).data.dropWhile allowedChar = [] := by
        have := dropWhile_append_all (P := allowedChar) (normalizeExpr t).data [] hall
        simpa using this
      simp [htw, hdw, hne]
    · have hnl : allowedChar '\n' = false := by decide
      have htw : (normalizeExpr t).data.takeWhile allowedChar = m := by
        rw [hm, takeWhile_append_all m ['\n'] hall]
        simp [List.takeWhile_cons, hnl]
      have hdw : (normalizeExpr t).data.dropWhile allowedChar = ['\n'] := by
        rw [hm, dropWhile_append_all m ['\n'] hall]
        simp [List.dropWhile_cons, hnl]
      simp [htw, hdw, hne]

/-- Witness for `validator_characterization`, at a Unicode-digit input:
`re`'s `\d` matches every Unicode decimal digit, so the validator accepts
the Arabic-Indic digit `"٥"`. -/
theorem validator_characterization_witness :
    (engineValidate "٥" = true ↔
      ((normalizeExpr "٥").data ≠ [] ∧ (normalizeExpr "٥").data.all allowedChar = true) ∨
      (∃ m, (normalizeExpr "٥").data = m ++ ['\n'] ∧ m ≠ [] ∧ m.all allowedChar = true)) ∧
    engineValidate "٥" = true :=
  ⟨validator_characterization "٥", by decide⟩

/-- One-step fuel monotonicity of the Python-grammar parsers. -/
theorem pMonoStep : ∀ f : ℕ,
    (∀ l x, pAtom f l = some x → pAtom (f+1) l = some x) ∧
    (∀ l x, pPow f l = some x → pPow (f+1) l = some x) ∧
    (∀ l x, pUnary f l = some x → pUnary (f+1) l = some x) ∧
    (∀ A l x, pTermLoop f A l = some x → pTermLoop (f+1) A l = some x) ∧
    (∀ l x, pTerm f l = some x → pTerm (f+1) l = some x) ∧
    (∀ A l x, pExprLoop f A l = some x → pExprLoop (f+1) A l = some x) ∧
    (∀ l x, pExpr f l = some x → pExpr (f+1) l = some x) := by
  intro f
  induction f with
  | zero =>
    refine ⟨fun l x h => ?_, fun l x h => ?_, fun l x h => ?_, fun A l x h => ?_,
      fun l x h => ?_, fun A l x h => ?_, fun l x h => ?_⟩ <;>
      simp [pAtom, pPow, pUnary, pTermLoop, pTerm, pExprLoop, pExpr] at h
  | succ f ih =>
    obtain ⟨ihA, ihP, ihU, ihTL, ihT, ihEL, ihE⟩ := ih
    refine ⟨?_, ?_, ?_, ?_, ?_, ?_, ?_⟩
    · -- pAtom
      intro l x h
      rw [pAtom] at h ⊢
      cases hs : skipSp l with
      | nil => rw [hs] at h; exact h
      | cons c t =>
        rw [hs] at h
        by_cases hc : c = '('
        · subst hc
          simp only [if_true] at h ⊢
          cases hs0 : skipSp t with
          | nil => rw [hs0] at h; simp at h
          | cons c0 r0 =>
            rw [hs0] at h
            by_cases hc0 : c0 = ')'
            · subst hc0
              simp only [if_true] at h ⊢
              exact h
            · simp only [hc0, if_false] at h ⊢
              cases he : pExpr f t with
              | none => rw [he] at h; simp at h
              | some ar =>
                rw [he] at h
                rw [ihE t ar he]
                exact h
        · simp only [hc, if_false] at h ⊢
          exact h
    · -- pPow
      intro l x h
      rw [pPow] at h ⊢
      cases ha : pAtom f l with
      | none => rw [ha] at h; simp at h
      | some ar =>
        rw [ha] at h
        rw [ihA l ar ha]
        obtain ⟨a, r⟩ := ar
        simp only [] at h ⊢
        cases hs : skipSp r with
        | nil => rw [hs] at h; exact h
        | cons c r1 =>
          rw [hs] at h
          by_cases hc : c = '*'
          · subst hc
            simp only [if_true] at h ⊢
            cases r1 with
            | nil => exact h
            | cons c2 r2 =>
              by_cases hc2 : c2 = '*'
              · subst hc2
                simp only [if_true] at h ⊢
                cases hu : pUnary f r2 with
                | none => rw [hu] at h; simp at h
                | some br =>
                  rw [hu] at h
                  rw [ihU r2 br hu]
                  exact h
              · simp only [hc2, if_false] at h ⊢
                exact h
          · simp only [hc, if_false] at h ⊢
            exact h
    · -- pUnary
      intro l x h
      rw [pUnary] at h ⊢
      cases hs : skipSp l with
      | nil => rw [hs] at h; simp only [] at h ⊢; exact ihP l x h
      | cons c t =>
        rw [hs] at h
        by_cases hc : c = '-'
        · subst hc
          simp only [if_true] at h ⊢
          cases hu : pUnary f t with
          | none => rw [hu] at h; simp at h
          | some ar =>
            rw [hu] at h
            rw [ihU t ar hu]
            exact h
        · by_cases hc2 : c = '+'
          · subst hc2
            simp only [if_true, if_false] at h ⊢
            cases hu : pUnary f t with
            | none => rw [hu] at h; simp at h
            | some ar =>
              rw [hu] at h
              rw [ihU t ar hu]
              exact h
          · simp only [hc, hc2, if_false] at h ⊢
            exact ihP l x h
    · -- pTermLoop
      intro A l x h
      rw [pTermLoop] at h ⊢
      cases hs : skipSp l with
      | nil => rw [hs] at h; exact h
      | cons c t =>
        rw [hs] at h
        by_cases hc : c = '*'
        · subst hc
          simp only [if_true] at h ⊢
          cases hu : pUnary f t with
          | none => rw [hu] at h; simp at h
          | some br =>
            rw [hu] at h
            rw [ihU t br hu]
            obtain ⟨b, r2⟩ := br
            simp only [] at h ⊢
            cases hl : pTermLoop f (PExp.mul A b) r2 with
            | none => rw [hl] at h; simp at h
            | some y =>
              rw [hl] at h
              rw [ihTL (PExp.mul A b) r2 y hl]
              exact h
        · by_cases hc2 : c = '/'
          · subst hc2
            simp only [if_true, if_false] at h ⊢
            cases t with
            | nil =>
              simp only [] at h ⊢
              cases hu : pUnary f [] with
              | none => rw [hu] at h; simp at h
              | some br =>
                rw [hu] at h
                rw [ihU [] br hu]
                obtain ⟨b, r3⟩ := br
                simp only [] at h ⊢
                cases hl : pTermLoop f (PExp.div A b) r3 with
                | none => rw [hl] at h; simp at h
                | some y =>
                  rw [hl] at h
                  rw [ihTL (PExp.div A b) r3 y hl]
                  exact h
            | cons c2 r2 =>
              by_cases hc3 : c2 = '/'
              · subst hc3
                simp only [if_true] at h ⊢
                cases hu : pUnary f r2 with
                | none => rw [hu] at h; simp at h
                | some br =>
                  rw [hu] at h
                  rw [ihU r2 br hu]
                  obtain ⟨b, r3⟩ := br
                  simp only [] at h ⊢
                  cases hl : pTermLoop f (PExp.fdiv A b) r3 with
                  | none => rw [hl] at h; simp at h
                  | some y =>
                    rw [hl] at h
                    rw [ihTL (PExp.fdiv A b) r3 y hl]
                    exact h
              · simp only [hc3, if_false] at h ⊢
                cases hu : pUnary f (c2 :: r2) with
                | none => rw [hu] at h; simp at h
                | some br =>
                  rw [hu] at h
                  rw [ihU (c2 :: r2) br hu]
                  obtain ⟨b, r3⟩ := br
                  simp only [] at h ⊢
                  cases hl : pTermLoop f (PExp.div A b) r3 with
                  | none => rw [hl] at h; simp at h
                  | some y =>
                    rw [hl] at h
                    rw [ihTL (PExp.div A b) r3 y hl]
                    exact h
          · simp only [hc, hc2, if_false] at h ⊢
            exact h
    · -- pTerm
      intro l x h
      rw [pTerm] at h ⊢
      cases hu : pUnary f l with
      | none => rw [hu] at h; simp at h
      | some ar =>
        rw [hu] at h
        rw [ihU l ar hu]
        obtain ⟨a, r⟩ := ar
        simp only [] at h ⊢
        cases hl : pTermLoop f a r with
        | none => rw [hl] at h; simp at h
        | some y =>
          rw [hl] at h
          rw [ihTL a r y hl]
          exact h
    · -- pExprLoop
      intro A l x h
      rw [pExprLoop] at h ⊢
      cases hs : skipSp l with
      | nil => rw [hs] at h; exact h
      | cons c t =>
        rw [hs] at h
        by_cases hc : c = '+'
        · subst hc
          simp only [if_true] at h ⊢
          cases ht : pTerm f t with
          | none => rw [ht] at h; simp at h
          | some br =>
            rw [ht] at h
            rw [ihT t br ht]
            obtain ⟨b, r2⟩ := br
            simp only [] at h ⊢
            cases hl : pExprLoop f (PExp.add A b) r2 with
            | none => rw [hl] at h; simp at h
            | some y =>
              rw [hl] at h
              rw [ihEL (PExp.add A b) r2 y hl]
              exact h
        · by_cases hc2 : c = '-'
          · subst hc2
            simp only [if_true, if_false] at h ⊢
            cases ht : pTerm f t with
            | none => rw [ht] at h; simp at h
            | some br =>
              rw [ht] at h
              rw [ihT t br ht]
              obtain ⟨b, r2⟩ := br
              simp only [] at h ⊢
              cases hl : pExprLoop f (PExp.sub A b) r2 with
              | none => rw [hl] at h; simp at h
              | some y =>
                rw [hl] at h
                rw [ihEL (PExp.sub A b) r2 y hl]
                exact h
          · simp only [hc, hc2, if_false] at h ⊢
            exact h
    · -- pExpr
      intro l x h
      rw [pExpr] at h ⊢
      cases ht : pTerm f l with
      | none => rw [ht] at h; simp at h
      | some ar =>
        rw [ht] at h
        rw [ihT l ar ht]
        obtain ⟨a, r⟩ := ar
        simp only [] at h ⊢
        cases hl : pExprLoop f a r with
        | none => rw [hl] at h; simp at h
        | some y =>
          rw [hl] at h
          rw [ihEL a r y hl]
          exact h

/-- `skipSp` is the identity on a list not starting with a space. -/
theorem skipSp_cons_ne (c : Char) (r : List Char) (hc : c ≠ ' ') :
    skipSp (c :: r) = c :: r := by
  rw [skipSp]
  simp [hc]

/-- A successful numeric lex starts with a digit or a dot. -/
theorem lexNum_shape (st : Bool) (l : List Char) (x : (ℚ × Bool) × List Char)
    (h : lexNumWith st l = some x) :
    ∃ c t, l = c :: t ∧ (c.isDigit = true ∨ c = '.') := by
  cases l with
  | nil => simp [lexNumWith] at h
  | cons c t =>
    refine ⟨c, t, rfl, ?_⟩
    by_cases hd : c.isDigit
    · exact Or.inl hd
    · right
      by_contra hdot
      have hd' : c.isDigit = false := by simpa using hd
      simp [lexNumWith, List.takeWhile_cons, hd', hdot] at h

/-- A successful reference operand starts (after spaces) with `(`, a digit,
or a dot. -/
theorem refAtom_shape (st : Bool) (f : ℕ) (l : List Char) (x : ℚ × List Char)
    (h : refAtom st f l = some x) :
    ∃ c t, skipSp l = c :: t ∧ (c = '(' ∨ c.isDigit = true ∨ c = '.') := by
  cases f with
  | zero => simp [refAtom] at h
  | succ f =>
    rw [refAtom] at h
    cases hs : skipSp l with
    | nil => rw [hs] at h; simp at h
    | cons c t =>
      rw [hs] at h
      by_cases hc : c = '('
      · exact ⟨c, t, rfl, Or.inl hc⟩
      · simp only [hc, if_false] at h
        cases hn : lexNumWith st (c :: t) with
        | none => rw [hn] at h; simp at h
        | some qbr =>
          obtain ⟨c', t', heq, hd⟩ := lexNum_shape st (c :: t) qbr hn
          injection heq with h1 h2
          subst h1
          exact ⟨c, t, rfl, Or.inr hd⟩

/-- A successful reference factor starts (after spaces) with `-`, `(`, a
digit, or a dot. -/
theorem refFactor_shape (st : Bool) (f : ℕ) (l : List Char) (x : ℚ × List Char)
    (h : refFactor st f l = some x) :
    ∃ c t, skipSp l = c :: t ∧ (c = '-' ∨ c = '(' ∨ c.isDigit = true ∨ c = '.') := by
  cases f with
  | zero => simp [refFactor] at h
  | succ f =>
    rw [refFactor] at h
    cases hs : skipSp l with
    | nil =>
      rw [hs] at h
      simp only [] at h
      obtain ⟨c', t', hs', hd⟩ := refAtom_shape st f l x h
      rw [hs] at hs'
      cases hs'
    | cons c t =>
      rw [hs] at h
      by_cases hc : c = '-'
      · exact ⟨c, t, rfl, Or.inl hc⟩
      · simp only [hc, if_false] at h
        obtain ⟨c', t', hs', hd⟩ := refAtom_shape st f l x h
        rw [hs] at hs'
        injection hs' with h1 h2
        subst h1
        exact ⟨c, t, rfl, Or.inr hd⟩

/-- A successful reference expression starts (after spaces) with `-`, `(`,
a digit, or a dot — in particular never with `)`, so a parenthesized
reference expression can never look like the empty tuple `()`. -/
theorem refExpr_shape (st : Bool) (f : ℕ) (l : List Char) (x : ℚ × List Char)
    (h : refExpr st f l = some x) :
    ∃ c t, skipSp l = c :: t ∧ (c = '-' ∨ c = '(' ∨ c.isDigit = true ∨ c = '.') := by
  cases f with
  | zero => simp [refExpr] at h
  | succ f =>
    rw [refExpr] at h
    cases hf : refFactor st f l with
    | none => rw [hf] at h; simp at h
    | some qr =>
      rw [hf] at h
      exact refFactor_shape st f l qr hf

/-- A character that can start a reference factor is not an operator or a
closing parenthesis. -/
theorem factorStart_ne (c : Char)
    (h : c = '-' ∨ c = '(' ∨ c.isDigit = true ∨ c = '.') :
    c ≠ '*' ∧ c ≠ '/' ∧ c ≠ '+' ∧ c ≠ ')' := by
  rcases h with rfl | rfl | h | rfl
  · exact ⟨by decide, by decide, by decide, by decide⟩
  · exact ⟨by decide, by decide, by decide, by decide⟩
  · refine ⟨?_, ?_, ?_, ?_⟩ <;> intro he <;> subst he <;> exact absurd h (by decide)
  · exact ⟨by decide, by decide, by decide, by decide⟩

/-- Within a successful reference `* /` loop, the input never starts with
two adjacent asterisks (the factor after the first `*` would have to start
with `*`). -/
theorem refTermLoop_noPP (st : Bool) (f : ℕ) (acc : ℚ) (l : List Char)
    (x : ℚ × List Char) (h : refTermLoop st f acc l = some x) :
    ∀ u, skipSp l ≠ '*' :: '*' :: u := by
  intro u hcon
  cases f with
  | zero => simp [refTermLoop] at h
  | succ f =>
    rw [refTermLoop] at h
    rw [hcon] at h
    simp only [if_true] at h
    cases hf : refFactor st f ('*' :: u) with
    | none => rw [hf] at h; simp at h
    | some qr =>
      obtain ⟨c', t', hst, hset⟩ := refFactor_shape st f ('*' :: u) qr hf
      rw [skipSp_cons_ne '*' u (by decide)] at hst
      injection hst with h1 h2
      subst h1
      exact absurd rfl (factorStart_ne _ hset).1

/-- Composition rules for `evalA` on successful numeric subevaluations. -/
theorem evalA_neg {a : PExp} {q : ℚ} {ba : Bool}
    (h : evalA a = .ok (.num q ba)) :
    evalA (.neg a) = .ok (.num (-q) ba) := by
  simp [evalA, h]

/-- `evalA` on an addition of successful numeric subevaluations. -/
theorem evalA_add {a b : PExp} {x y : ℚ} {bx bb : Bool}
    (ha : evalA a = .ok (.num x bx)) (hb : evalA b = .ok (.num y bb)) :
    evalA (.add a b) = .ok (.num (x + y) (bx && bb)) := by
  simp [evalA, ha, hb]

/-- `evalA` on a subtraction of successful numeric subevaluations. -/
theorem evalA_sub {a b : PExp} {x y : ℚ} {bx bb : Bool}
    (ha : evalA a = .ok (.num x bx)) (hb : evalA b = .ok (.num y bb)) :
    evalA (.sub a b) = .ok (.num (x - y) (bx && bb)) := by
  simp [evalA, ha, hb]

/-- `evalA` on a multiplication of successful numeric subevaluations. -/
theorem evalA_mul {a b : PExp} {x y : ℚ} {bx bb : Bool}
    (ha : evalA a = .ok (.num x bx)) (hb : evalA b = .ok (.num y bb)) :
    evalA (.mul a b) = .ok (.num (x * y) (bx && bb)) := by
  simp [evalA, ha, hb]

/-- `evalA` on a division of successful numeric subevaluations with a
nonzero divisor; true division is always `float`-typed. -/
theorem evalA_div {a b : PExp} {x y : ℚ} {bx bb : Bool}
    (ha : evalA a = .ok (.num x bx)) (hb : evalA b = .ok (.num y bb))
    (hy : y ≠ 0) : evalA (.div a b) = .ok (.num (x / y) false) := by
  simp [evalA, ha, hb, hy]

/-- The Python-grammar parser-evaluator simulates the reference grammar
(with Python-compatible literals), level by level, with twice the fuel:
every reference parse yields a Python parse of the same extent whose
evaluation is a number (with some dynamic type tag) of the same value. -/
theorem refPy : ∀ f : ℕ,
    (∀ l q r, refAtom true f l = some (q, r) →
       ∃ a b2, pAtom (2*f) l = some (a, r) ∧ evalA a = .ok (.num q b2)) ∧
    (∀ l q r, refFactor true f l = some (q, r) → (∀ u, skipSp r ≠ '*' :: '*' :: u) →
       ∃ a b2, pUnary (2*f) l = some (a, r) ∧ evalA a = .ok (.num q b2)) ∧
    (∀ acc l q r A bA, refTermLoop true f acc l = some (q, r) →
       evalA A = .ok (.num acc bA) →
       ∃ B bB, pTermLoop (2*f) A l = some (B, r) ∧ evalA B = .ok (.num q bB)) ∧
    (∀ l q r, refTerm true f l = some (q, r) →
       ∃ a b2, pTerm (2*f) l = some (a, r) ∧ evalA a = .ok (.num q b2)) ∧
    (∀ acc l q r A bA, refExprLoop true f acc l = some (q, r) →
       evalA A = .ok (.num acc bA) →
       ∃ B bB, pExprLoop (2*f) A l = some (B, r) ∧ evalA B = .ok (.num q bB)) ∧
    (∀ l q r, refExpr true f l = some (q, r) →
       ∃ a b2, pExpr (2*f) l = some (a, r) ∧ evalA a = .ok (.num q b2)) := by
  intro f
  induction f with
  | zero =>
    refine ⟨fun l q r h => ?_, fun l q r h hnp => ?_,
      fun acc l q r A bA h hA => ?_, fun l q r h => ?_,
      fun acc l q r A bA h hA => ?_, fun l q r h => ?_⟩ <;>
      simp [refAtom, refFactor, refTermLoop, refTerm, refExprLoop, refExpr] at h
  | succ f ih =>
    obtain ⟨ihA, ihF, ihTL, ihT, ihEL, ihE⟩ := ih
    have mU := fun n => (pMonoStep n).2.2.1
    have mTL := fun n => (pMonoStep n).2.2.2.1
    have mT := fun n => (pMonoStep n).2.2.2.2.1
    have mEL := fun n => (pMonoStep n).2.2.2.2.2.1
    have mE := fun n => (pMonoStep n).2.2.2.2.2.2
    have e2 : 2*(f+1) = 2*f+1+1 := by ring
    -- shared step: a reference operand in a context with no adjacent
    -- double asterisk parses as a Python power-level expression
    have hAtomPow : ∀ l q r, refAtom true f l = some (q, r) →
        (∀ u, skipSp r ≠ '*' :: '*' :: u) →
        ∃ a b2, pPow (2*f+1) l = some (a, r) ∧ evalA a = .ok (.num q b2) := by
      intro l q r ha hnp
      obtain ⟨a, b2, hpa, hev⟩ := ihA l q r ha
      refine ⟨a, b2, ?_, hev⟩
      rw [pPow, hpa]
      simp only []
      cases hs2 : skipSp r with
      | nil => rfl
      | cons c r1 =>
        by_cases hc : c = '*'
        · subst hc
          cases r1 with
          | nil => simp
          | cons c2 r2 =>
            by_cases hc2 : c2 = '*'
            · subst hc2
              exact absurd hs2 (hnp r2)
            · simp [hc2]
        · simp [hc]
    -- shared step: a reference term (factor then loop) parses as a Python
    -- term with fuel 2*f+1
    have hTermStep : ∀ l q1 r1 q r, refFactor true f l = some (q1, r1) →
        refTermLoop true f q1 r1 = some (q, r) →
        ∃ B bB, pTerm (2*f+1) l = some (B, r) ∧ evalA B = .ok (.num q bB) := by
      intro l q1 r1 q r hf hl
      have hnp := refTermLoop_noPP true f q1 r1 (q, r) hl
      obtain ⟨a, b2, hpu, hev1⟩ := ihF l q1 r1 hf hnp
      obtain ⟨B, bB, hpl, hevB⟩ := ihTL q1 r1 q r a b2 hl hev1
      refine ⟨B, bB, ?_, hevB⟩
      rw [pTerm, hpu]
      simp only []
      exact hpl
    refine ⟨?_, ?_, ?_, ?_, ?_, ?_⟩
    · -- atoms
      intro l q r h
      rw [e2, pAtom]
      rw [refAtom] at h
      cases hs : skipSp l with
      | nil => rw [hs] at h; simp at h
      | cons c t =>
        rw [hs] at h
        by_cases hc : c = '\x28'
        · subst hc
          simp only [if_true] at h ⊢
          cases he : refExpr true f t with
          | none => rw [he] at h; simp at h
          | some qr2 =>
            obtain ⟨q2, r2⟩ := qr2
            rw [he] at h
            simp only [] at h
            obtain ⟨c9, t9, hst9, hset9⟩ := refExpr_shape true f t (q2, r2) he
            have hrp : c9 ≠ '\x29' := (factorStart_ne c9 hset9).2.2.2
            rw [hst9]
            simp only [hrp, if_false]
            obtain ⟨A, b2, hpe, hev⟩ := ihE t q2 r2 he
            rw [mE (2*f) t (A, r2) hpe]
            simp only []
            cases hs2 : skipSp r2 with
            | nil => rw [hs2] at h; simp at h
            | cons c2 r3 =>
              rw [hs2] at h
              by_cases hc2 : c2 = '\x29'
              · subst hc2
                simp only [if_true] at h ⊢
                simp only [Option.some.injEq, Prod.mk.injEq] at h
                obtain ⟨hq, hr⟩ := h
                subst hq
                subst hr
                exact ⟨A, b2, rfl, hev⟩
              · simp only [hc2, if_false] at h
                simp at h
        · simp only [hc, if_false] at h ⊢
          cases hn : lexNumWith true (c :: t) with
          | none => rw [hn] at h; simp at h
          | some qbr =>
            obtain ⟨⟨qv, bv⟩, rv⟩ := qbr
            rw [hn] at h
            simp only [] at h
            simp only [Option.some.injEq, Prod.mk.injEq] at h
            obtain ⟨hq, hr⟩ := h
            subst hq
            subst hr
            exact ⟨_, bv, rfl, rfl⟩
    · -- factors
      intro l q r h hnp
      rw [e2, pUnary]
      rw [refFactor] at h
      cases hs : skipSp l with
      | nil =>
        rw [hs] at h
        simp only [] at h
        obtain ⟨a, b2, hpp, hev⟩ := hAtomPow l q r h hnp
        exact ⟨a, b2, hpp, hev⟩
      | cons c t =>
        rw [hs] at h
        by_cases hc : c = '-'
        · subst hc
          simp only [if_true] at h ⊢
          cases hf : refFactor true f t with
          | none => rw [hf] at h; simp at h
          | some qr2 =>
            obtain ⟨q2, r2⟩ := qr2
            rw [hf] at h
            simp only [] at h
            simp only [Option.some.injEq, Prod.mk.injEq] at h
            obtain ⟨hq, hr⟩ := h
            subst hr
            obtain ⟨a, b2, hpu, hev⟩ := ihF t q2 r2 hf hnp
            refine ⟨.neg a, b2, ?_, ?_⟩
            · simp only [mU (2*f) t (a, r2) hpu]
            · rw [← hq]
              exact evalA_neg hev
        · simp only [hc, if_false] at h
          obtain ⟨c3, t3, hst, hset⟩ := refAtom_shape true f l (q, r) h
          rw [hs] at hst
          injection hst with h1 h2
          subst h1
          have hplus : c ≠ '+' := by
            rcases hset with rfl | hd | rfl
            · decide
            · intro he
              subst he
              exact absurd hd (by decide)
            · decide
          obtain ⟨a, b2, hpp, hev⟩ := hAtomPow l q r h hnp
          refine ⟨a, b2, ?_, hev⟩
          simp only [hc, hplus, if_false]
          exact hpp
    · -- term loops
      intro acc l q r A bA h hA
      rw [e2, pTermLoop]
      rw [refTermLoop] at h
      cases hs : skipSp l with
      | nil =>
        rw [hs] at h
        simp only [] at h
        simp only [Option.some.injEq, Prod.mk.injEq] at h
        obtain ⟨hq, hr⟩ := h
        subst hq
        subst hr
        exact ⟨A, bA, rfl, hA⟩
      | cons c t =>
        rw [hs] at h
        by_cases hc : c = '*'
        · subst hc
          simp only [if_true] at h ⊢
          cases hf : refFactor true f t with
          | none => rw [hf] at h; simp at h
          | some qr2 =>
            obtain ⟨qf, r2⟩ := qr2
            rw [hf] at h
            simp only [] at h
            have hnp2 := refTermLoop_noPP true f (acc * qf) r2 (q, r) h
            obtain ⟨b, b2, hpu, hevb⟩ := ihF t qf r2 hf hnp2
            obtain ⟨B, bB, hpl, hevB⟩ :=
              ihTL (acc * qf) r2 q r (PExp.mul A b) (bA && b2) h (evalA_mul hA hevb)
            refine ⟨B, bB, ?_, hevB⟩
            rw [mU (2*f) t (b, r2) hpu]
            simp only []
            exact mTL (2*f) (PExp.mul A b) r2 (B, r) hpl
        · by_cases hc2 : c = '/'
          · subst hc2
            simp only [if_true, if_false] at h ⊢
            cases hf : refFactor true f t with
            | none => rw [hf] at h; simp at h
            | some qr2 =>
              obtain ⟨qf, r2⟩ := qr2
              rw [hf] at h
              simp only [] at h
              by_cases hz : qf = 0
              · rw [if_pos hz] at h
                simp at h
              · rw [if_neg hz] at h
                have hnp2 := refTermLoop_noPP true f (acc / qf) r2 (q, r) h
                obtain ⟨b, b2, hpu, hevb⟩ := ihF t qf r2 hf hnp2
                obtain ⟨B, bB, hpl, hevB⟩ :=
                  ihTL (acc / qf) r2 q r (PExp.div A b) false h (evalA_div hA hevb hz)
                refine ⟨B, bB, ?_, hevB⟩
                obtain ⟨c3, t3, hst, hset⟩ := refFactor_shape true f t (qf, r2) hf
                cases t with
                | nil => simp [skipSp] at hst
                | cons c2 r4 =>
                  have hc2ne : c2 ≠ '/' := by
                    intro he
                    subst he
                    rw [skipSp_cons_ne '/' r4 (by decide)] at hst
                    injection hst with e1 e22
                    subst e1
                    exact absurd rfl (factorStart_ne _ hset).2.1
                  simp only [hc2ne, if_false]
                  rw [mU (2*f) (c2 :: r4) (b, r2) hpu]
                  simp only []
                  exact mTL (2*f) (PExp.div A b) r2 (B, r) hpl
          · simp only [hc, hc2, if_false] at h ⊢
            simp only [Option.some.injEq, Prod.mk.injEq] at h
            obtain ⟨hq, hr⟩ := h
            subst hq
            subst hr
            exact ⟨A, bA, rfl, hA⟩
    · -- terms
      intro l q r h
      rw [refTerm] at h
      cases hf : refFactor true f l with
      | none => rw [hf] at h; simp at h
      | some qr1 =>
        obtain ⟨q1, r1⟩ := qr1
        rw [hf] at h
        simp only [] at h
        obtain ⟨B, bB, hpt, hevB⟩ := hTermStep l q1 r1 q r hf h
        refine ⟨B, bB, ?_, hevB⟩
        rw [e2]
        exact mT (2*f+1) l (B, r) hpt
    · -- expression loops
      intro acc l q r A bA h hA
      rw [e2, pExprLoop]
      rw [refExprLoop] at h
      cases hs : skipSp l with
      | nil =>
        rw [hs] at h
        simp only [] at h
        simp only [Option.some.injEq, Prod.mk.injEq] at h
        obtain ⟨hq, hr⟩ := h
        subst hq
        subst hr
        exact ⟨A, bA, rfl, hA⟩
      | cons c t =>
        rw [hs] at h
        by_cases hc : c = '+'
        · subst hc
          simp only [if_true] at h ⊢
          cases ht : refTerm true f t with
          | none => rw [ht] at h; simp at h
          | some qr2 =>
            obtain ⟨qt, r2⟩ := qr2
            rw [ht] at h
            simp only [] at h
            obtain ⟨b, b2, hpt, hevb⟩ := ihT t qt r2 ht
            obtain ⟨B, bB, hpl, hevB⟩ :=
              ihEL (acc + qt) r2 q r (PExp.add A b) (bA && b2) h (evalA_add hA hevb)
            refine ⟨B, bB, ?_, hevB⟩
            rw [mT (2*f) t (b, r2) hpt]
            simp only []
            exact mEL (2*f) (PExp.add A b) r2 (B, r) hpl
        · by_cases hc2 : c = '-'
          · subst hc2
            simp only [if_true, if_false] at h ⊢
            cases ht : refTerm true f t with
            | none => rw [ht] at h; simp at h
            | some qr2 =>
              obtain ⟨qt, r2⟩ := qr2
              rw [ht] at h
              simp only [] at h
              obtain ⟨b, b2, hpt, hevb⟩ := ihT t qt r2 ht
              obtain ⟨B, bB, hpl, hevB⟩ :=
                ihEL (acc - qt) r2 q r (PExp.sub A b) (bA && b2) h (evalA_sub hA hevb)
              refine ⟨B, bB, ?_, hevB⟩
              rw [mT (2*f) t (b, r2) hpt]
              simp only []
              exact mEL (2*f) (PExp.sub A b) r2 (B, r) hpl
          · simp only [hc, hc2, if_false] at h ⊢
            simp only [Option.some.injEq, Prod.mk.injEq] at h
            obtain ⟨hq, hr⟩ := h
            subst hq
            subst hr
            exact ⟨A, bA, rfl, hA⟩
    · -- full expressions
      intro l q r h
      rw [e2, pExpr]
      rw [refExpr] at h
      cases hf : refFactor true f l with
      | none => rw [hf] at h; simp at h
      | some qr1 =>
        obtain ⟨q1, r1⟩ := qr1
        rw [hf] at h
        simp only [] at h
        cases hl : refTermLoop true f q1 r1 with
        | none => rw [hl] at h; simp at h
        | some qr2 =>
          obtain ⟨q2, r2⟩ := qr2
          rw [hl] at h
          simp only [] at h
          obtain ⟨B, bB, hpt, hev2⟩ := hTermStep l q1 r1 q2 r2 hf hl
          obtain ⟨C, bC, hpel, hev3⟩ := ihEL q2 r2 q r B bB h hev2
          refine ⟨C, bC, ?_, hev3⟩
          rw [hpt]
          simp only []
          exact mEL (2*f) B r2 (C, r) hpel

/-- C1 (amended): for every string the reference grammar accepts in which
every integer literal is also a legal Python literal (no leading zero on a
dotless literal unless it is all zeros), the code's evaluator returns
exactly the value the reference arithmetic evaluator assigns: conventional
precedence, left-to-right associativity, unary minus at operand starts,
with the numeric domain idealized as exact arithmetic. -/
theorem safeEval_refines_specEvaluator (s : String) (v : ℚ)
    (h : refEvalPy s = some v) : safeEval s = .ok v := by
  rw [refEvalPy] at h
  cases he : refExpr true (refFuel s) s.data with
  | none => rw [he] at h; simp at h
  | some qr =>
    obtain ⟨q, r⟩ := qr
    rw [he] at h
    simp only [] at h
    by_cases hk : (skipSp r).isEmpty
    · rw [if_pos hk] at h
      injection h with hv
      subst hv
      obtain ⟨a, b2, hpe, hev⟩ := (refPy (refFuel s)).2.2.2.2.2 s.data q r he
      have hpp : pyParse s = some a := by
        rw [pyParse, pyFuel]
        rw [hpe]
        simp only []
        rw [if_pos hk]
      rw [safeEval, hpp]
      simp only []
      rw [hev]
    · rw [if_neg hk] at h
      simp at h

set_option maxRecDepth 8000 in
/-- Witness for `safeEval_refines_specEvaluator`. -/
theorem safeEval_refines_specEvaluator_witness :
    refEvalPy "2+3*(4-1)/2" = some (13/2) ∧ safeEval "2+3*(4-1)/2" = .ok (13/2) :=
  ⟨by decide, safeEval_refines_specEvaluator "2+3*(4-1)/2" (13/2) (by decide)⟩
